import Mathlib

/-!
Shallow embedding of `vector.h`: the raw-storage layer `RawMemory<T>` and the
typed dynamic-array layer `Vector<T>`, together with proofs about the public
operations (`PushBack`, `Resize`, `Reserve`, `Emplace`, `Erase`, assignment,
`Swap`, move construction).

Modelling conventions:
* A storage block is a `List (Option T)` whose length is the block's
  `capacity_`; the null buffer of a default-constructed `RawMemory` is `[]`
  (the C++ invariant ties `capacity_` to the extent of `buffer_`, so the
  length of the list plays both roles).
* A slot holds `some x` when a live object with value `x` is constructed in
  it, and `none` when the slot is uninitialized raw memory.  Placement-`new`
  into a slot sets it to `some x`; a destructor call sets it back to `none`.
* The `std::` bulk algorithms (`copy`, `uninitialized_copy_n`,
  `uninitialized_move_n`, `uninitialized_value_construct_n`, `move`,
  `move_backward`, `destroy_n`) each write a sequence of consecutive slots;
  they are modelled by `setRange`, with the values they write taken from the
  buffer state at the point of the call (which is what the forward/backward
  iteration orders of the originals guarantee for the overlapping calls).
  Element values are pure data, so moving a value and copying it coincide.
* Out-of-memory and throwing element operations are modelled separately for
  the one claim that needs them (copy assignment's grow path) by an
  `Except`-valued copy constructor parameterised by failure oracles.
-/

namespace VectorH

variable {α : Type} {T : Type}

/-- Writes the list `vals` into consecutive slots of `buf` starting at index
`s`, one `List.set` per slot, exactly as the `std::` range algorithms write
one slot per iteration.  Writes past the end of `buf` are dropped (no call in
the development ever goes out of bounds; the bound is discharged at each
use). -/
def setRange : List α → Nat → List α → List α
  | buf, _, [] => buf
  | buf, s, v :: vs => setRange (buf.set s v) (s + 1) vs

theorem setRange_length (vals : List α) :
    ∀ (buf : List α) (s : Nat), (setRange buf s vals).length = buf.length := by
  induction vals with
  | nil => intro buf s; rfl
  | cons v vs ih =>
    intro buf s
    show (setRange (buf.set s v) (s + 1) vs).length = buf.length
    rw [ih, List.length_set]

theorem setRange_getElem? (vals : List α) :
    ∀ (buf : List α) (s i : Nat),
      (setRange buf s vals)[i]? =
        if s ≤ i ∧ i < s + vals.length ∧ i < buf.length then vals[i - s]?
        else buf[i]? := by
  induction vals with
  | nil =>
    intro buf s i
    simp only [setRange, List.length_nil]
    rw [if_neg]
    omega
  | cons v vs ih =>
    intro buf s i
    show (setRange (buf.set s v) (s + 1) vs)[i]? = _
    rw [ih, List.length_set]
    by_cases h1 : s + 1 ≤ i ∧ i < s + 1 + vs.length ∧ i < buf.length
    · rw [if_pos h1, if_pos (by simp only [List.length_cons]; omega)]
      have hi : i - s = (i - (s + 1)) + 1 := by omega
      rw [hi]
      simp
    · rw [if_neg h1, List.getElem?_set]
      by_cases hs : s = i
      · subst hs
        by_cases hlen : s < buf.length
        · rw [if_pos rfl, if_pos hlen,
            if_pos (by simp only [List.length_cons]; omega)]
          simp
        · rw [if_pos rfl, if_neg hlen, if_neg (by simp only [List.length_cons]; omega)]
          exact (List.getElem?_eq_none (by omega)).symm
      · rw [if_neg hs, if_neg (by simp only [List.length_cons]; omega)]

theorem setRange_eq (vals : List α) (buf : List α) (s : Nat)
    (h : s + vals.length ≤ buf.length) :
    setRange buf s vals = buf.take s ++ vals ++ buf.drop (s + vals.length) := by
  apply List.ext_getElem?
  intro i
  rw [setRange_getElem?, List.getElem?_append, List.getElem?_append,
    List.getElem?_take, List.getElem?_drop, List.length_append, List.length_take]
  have hmin : s ⊓ buf.length = s := by omega
  rw [hmin]
  split_ifs <;> first
  | rfl
  | omega
  | (congr 1; omega)

/-- Number of element-lifetime events performed by an operation: placement
constructions, element copies, destructor calls, and deallocations of a
non-null storage block.  Used to state the claims about what an operation
does — and does not — destroy or release. -/
structure Effects where
  constructed : Nat
  copied : Nat
  destroyed : Nat
  released : Nat
deriving DecidableEq

/-- No element-lifetime event at all. -/
def Effects.none : Effects := ⟨0, 0, 0, 0⟩

/-- The raw-storage layer `RawMemory<T>`: owns `buffer_` (a block of
`capacity_` uninitialized slots, `[]` for the null buffer).  `capacity_` is
the length of `buffer`. -/
structure RawMemory (T : Type) where
  buffer : List (Option T)
deriving DecidableEq

/-- `RawMemory::Capacity()`: `return capacity_;`. -/
def RawMemory.Capacity (r : RawMemory T) : Nat := r.buffer.length

/-- `RawMemory::Swap` (lines 61-64): `std::swap(buffer_, other.buffer_);
std::swap(capacity_, other.capacity_);` — the two blocks change owners, no
slot is read or written. -/
def RawMemory.SwapOp (a b : RawMemory T) : (RawMemory T × RawMemory T) × Effects :=
  ((b, a), Effects.none)

/-- `RawMemory::operator=(RawMemory&&)` (lines 28-36): when `this != &other`
it reassigns `buffer_` and `capacity_` from `other` and nulls `other` out.
The block previously held by `*this` is neither destroyed element-wise nor
passed to `Deallocate` — the body contains no such call. -/
def RawMemory.moveAssign (isSelf : Bool) (dest other : RawMemory T) :
    (RawMemory T × RawMemory T) × Effects :=
  if isSelf then ((dest, other), Effects.none)
  else ((⟨other.buffer⟩, ⟨[]⟩), Effects.none)

/-- The typed layer `Vector<T>`: one exclusively owned `RawMemory` plus the
count `size_` of live elements in slots `[0, size_)`. -/
structure Vector (T : Type) where
  data : RawMemory T
  size : Nat
deriving DecidableEq

/-- `Vector::Size()`. -/
def Vector.Size (v : Vector T) : Nat := v.size

/-- `Vector::Capacity()`: `return data_.Capacity();`. -/
def Vector.Capacity (v : Vector T) : Nat := v.data.Capacity

/-- Contents of slot `index` of the vector's buffer (`data_[index]`):
`some x` when a live element with value `x` sits there, `none` when the slot
is uninitialized. -/
def Vector.slot (v : Vector T) (index : Nat) : Option T :=
  v.data.buffer.getD index none

/-- The live-element range `[begin(), end())`, i.e. the first `size_` slots. -/
def Vector.elems (v : Vector T) : List (Option T) :=
  v.data.buffer.take v.size

/-- Basic well-formedness every really-constructed `Vector` object has:
the live count fits in the allocated block. -/
abbrev Vector.wfSize (v : Vector T) : Prop := v.size ≤ v.Capacity

/-- The full representation invariant from the spec: `0 ≤ size ≤ capacity`,
slots `[0, size)` hold live constructed values, slots `[size, capacity)` are
uninitialized. -/
def Vector.Inv (v : Vector T) : Prop :=
  v.size ≤ v.Capacity ∧
  (∀ i, i < v.size → (v.slot i).isSome) ∧
  (∀ i, i < v.Capacity → v.size ≤ i → v.slot i = Option.none)

instance [DecidableEq T] (v : Vector T) : Decidable v.Inv := by
  unfold Vector.Inv
  infer_instance

/-- `std::destroy_n(buf + s, n)`: runs the destructor on `n` consecutive
slots starting at `s`, leaving them uninitialized. -/
def destroyN (buf : List (Option T)) (s n : Nat) : List (Option T) :=
  setRange buf s (List.replicate n Option.none)

/-- `std::uninitialized_value_construct_n(buf + s, n)`: value-constructs `n`
elements into consecutive slots starting at `s`. -/
def valueConstructN [Inhabited T] (buf : List (Option T)) (s n : Nat) :
    List (Option T) :=
  setRange buf s (List.replicate n (some default))

/-- Default-constructed `Vector()`: zero size, null buffer. -/
def Vector.nil : Vector T := ⟨⟨[]⟩, 0⟩

/-- `Vector::Reserve` (lines 328-340): no-op when `new_capacity <=
data_.Capacity()`; otherwise allocate a fresh block, relocate the `size_`
live elements into its front (by move or copy — same value either way),
destroy the originals and swap the blocks.  The resulting state keeps
`size_` and owns the new block. -/
def Vector.Reserve (v : Vector T) (newCapacity : Nat) : Vector T :=
  if newCapacity ≤ v.Capacity then v
  else
    ⟨⟨setRange (List.replicate newCapacity Option.none) 0
        (v.data.buffer.take v.size)⟩, v.size⟩

/-- `Vector::Resize` (lines 202-211), translated exactly as written: when
shrinking, destroy the trailing `size_ - new_size` elements; when growing,
`Reserve(new_size)` and then `std::uninitialized_value_construct_n(begin(),
new_size - size_)` — note the source passes `begin()`, not
`begin() + size_`, so the new elements are constructed at the FRONT of the
buffer; finally `size_ = new_size`. -/
def Vector.Resize [Inhabited T] (v : Vector T) (newSize : Nat) : Vector T :=
  let v1 : Vector T :=
    if newSize < v.size then
      ⟨⟨destroyN v.data.buffer newSize (v.size - newSize)⟩, v.size⟩
    else v
  let v2 : Vector T :=
    if newSize > v.size then
      let r := v1.Reserve newSize
      ⟨⟨valueConstructN r.data.buffer 0 (newSize - v.size)⟩, r.size⟩
    else v1
  ⟨v2.data, newSize⟩

/-- `Vector::PushBack(const T&)` (lines 213-229).  When `size_ ==
Capacity()` a new block of `size_ == 0 ? 1 : size_ * 2` slots is allocated,
the new element is constructed at its slot `size_`, the old elements are
relocated to its front, the originals destroyed and the blocks swapped;
otherwise the element is constructed into the free tail slot.  `++size_`. -/
def Vector.PushBack (v : Vector T) (value : T) : Vector T :=
  if v.size = v.Capacity then
    let newData : List (Option T) :=
      List.replicate (if v.size = 0 then 1 else v.size * 2) Option.none
    let afterNew := newData.set v.size (some value)
    let afterMove := setRange afterNew 0 (v.data.buffer.take v.size)
    ⟨⟨afterMove⟩, v.size + 1⟩
  else
    ⟨⟨v.data.buffer.set v.size (some value)⟩, v.size + 1⟩

/-- `Vector::EmplaceBack` (lines 256-274): same slot discipline as
`PushBack` with the element constructed from the forwarded arguments; the
constructed value is `value`. -/
def Vector.EmplaceBack (v : Vector T) (value : T) : Vector T :=
  v.PushBack value

/-- `Vector::PopBack` (lines 249-254): when `size_ > 0`, destroy the last
live element and decrement `size_`. -/
def Vector.PopBack (v : Vector T) : Vector T :=
  if 0 < v.size then ⟨⟨destroyN v.data.buffer (v.size - 1) 1⟩, v.size - 1⟩
  else v

/-- `Vector::Emplace` (lines 276-309) at index `ind = pos - cbegin()`.
Growth path: construct the new element at slot `ind` of the fresh block,
relocate `[0, ind)` to the front and `[ind, size_)` shifted one slot right,
destroy the originals, swap.  No-growth append (`pos == end()`): construct
into the tail slot.  No-growth insert in the middle: materialise the value
(`tmp`), move-construct the last element into the tail slot, shift
`[ind, size_ - 1)` one slot right with `std::move_backward` (which writes
each source slot's pre-call value), then move-assign `tmp` into slot `ind`.
`++size_` in every path. -/
def Vector.Emplace (v : Vector T) (ind : Nat) (value : T) : Vector T :=
  if v.size = v.Capacity then
    let newData : List (Option T) :=
      List.replicate (if v.size = 0 then 1 else v.size * 2) Option.none
    let afterNew := newData.set ind (some value)
    let afterFront := setRange afterNew 0 (v.data.buffer.take ind)
    let afterBack := setRange afterFront (ind + 1)
      ((v.data.buffer.drop ind).take (v.size - ind))
    ⟨⟨afterBack⟩, v.size + 1⟩
  else if ind = v.size then
    ⟨⟨v.data.buffer.set v.size (some value)⟩, v.size + 1⟩
  else
    let afterTail := v.data.buffer.set v.size (v.data.buffer.getD (v.size - 1) Option.none)
    let afterShift := setRange afterTail (ind + 1)
      ((afterTail.drop ind).take (v.size - 1 - ind))
    let afterAssign := afterShift.set ind (some value)
    ⟨⟨afterAssign⟩, v.size + 1⟩

/-- `Vector::Insert(pos, value)` (lines 311-317) forwards to `Emplace`. -/
def Vector.Insert (v : Vector T) (ind : Nat) (value : T) : Vector T :=
  v.Emplace ind value

/-- `Vector::Erase` (lines 319-326) at index `ind = pos - cbegin()`:
`std::move(begin() + ind + 1, end(), begin() + ind)` shifts the suffix one
slot left (forward iteration writes each source slot's pre-call value),
`std::destroy_n(end() - 1, 1)` leaves the old last slot uninitialized,
`--size_`. -/
def Vector.Erase (v : Vector T) (ind : Nat) : Vector T :=
  let afterShift := setRange v.data.buffer ind
    ((v.data.buffer.drop (ind + 1)).take (v.size - ind - 1))
  let afterDestroy := destroyN afterShift (v.size - 1) 1
  ⟨⟨afterDestroy⟩, v.size - 1⟩

/-- `Vector::Swap` (lines 189-192): `data_.Swap(other.data_);
std::swap(other.size_, size_);` — complete state exchange through
pointer/integer swaps, no element touched. -/
def Vector.SwapOp (a b : Vector T) : (Vector T × Vector T) × Effects :=
  let ((da, db), e) := RawMemory.SwapOp a.data b.data
  ((⟨da, b.size⟩, ⟨db, a.size⟩), e)

/-- Copy constructor `Vector(const Vector&)` (lines 106-111): allocate
capacity `other.size_`, `std::uninitialized_copy_n` the `other.size_` live
elements into the front.  (Total version: every element copy succeeds.) -/
def Vector.copyConstruct (other : Vector T) : Vector T :=
  ⟨⟨setRange (List.replicate other.size Option.none) 0 other.elems⟩, other.size⟩

/-- `Vector::operator=(const Vector&)` (lines 149-169).  `isSelf` mirrors
the `this != &rhs` guard.  Grow path: build `rhs_copy` then `Swap(rhs_copy)`
(the temporary, holding the old state, dies at the end of the block).
In-place paths: `std::copy` over the common prefix, then either destroy the
surplus of `*this` or `std::uninitialized_copy_n` the surplus of `rhs` into
the free tail; `size_ = rhs.size_`. -/
def Vector.copyAssign (isSelf : Bool) (dest rhs : Vector T) : Vector T :=
  if isSelf then dest
  else if dest.Capacity < rhs.size then Vector.copyConstruct rhs
  else if rhs.size < dest.size then
    let afterCopy := setRange dest.data.buffer 0 (rhs.data.buffer.take rhs.size)
    let afterDestroy := destroyN afterCopy rhs.size (dest.size - rhs.size)
    ⟨⟨afterDestroy⟩, rhs.size⟩
  else
    let afterCopy := setRange dest.data.buffer 0 (rhs.data.buffer.take dest.size)
    let afterTail := setRange afterCopy dest.size
      ((rhs.data.buffer.drop dest.size).take (rhs.size - dest.size))
    ⟨⟨afterTail⟩, rhs.size⟩

/-- Move constructor `Vector(Vector&&)` (lines 113-116): the new object
takes `other`'s block and size; `other` is left with the null buffer (from
`RawMemory`'s move constructor) and `size_ = 0`.  Returns (constructed
object, state of `other` afterwards). -/
def Vector.moveConstruct (other : Vector T) : Vector T × Vector T :=
  (⟨other.data, other.size⟩, ⟨⟨[]⟩, 0⟩)

/-- `Vector::operator=(Vector&&)` (lines 171-178): when `this != &rhs`,
`data_ = std::move(rhs.data_)` (see `RawMemory.moveAssign` — no destructor
call, no deallocation), `size_ = rhs.size_`, `rhs.size_ = 0`.  Returns
((new `*this`, new `rhs`), lifetime events performed). -/
def Vector.moveAssign (isSelf : Bool) (dest rhs : Vector T) :
    (Vector T × Vector T) × Effects :=
  if isSelf then ((dest, rhs), Effects.none)
  else
    let ((d, r), e) := RawMemory.moveAssign false dest.data rhs.data
    ((⟨d, rhs.size⟩, ⟨r, 0⟩), e)

theorem Vector.elems_length (v : Vector T) (h : v.wfSize) :
    v.elems.length = v.size := by
  have : v.size ≤ v.data.buffer.length := h
  simp only [Vector.elems, List.length_take]
  omega

theorem Vector.emplace_size (v : Vector T) (ind : Nat) (x : T) :
    (v.Emplace ind x).size = v.size + 1 := by
  rw [Vector.Emplace]
  by_cases h1 : v.size = v.Capacity
  · rw [if_pos h1]
  · rw [if_neg h1]
    by_cases h2 : ind = v.size
    · rw [if_pos h2]
    · rw [if_neg h2]

theorem Vector.emplace_wfSize (v : Vector T) (ind : Nat) (x : T) (h : v.wfSize) :
    (v.Emplace ind x).wfSize := by
  have hsz : v.size ≤ v.data.buffer.length := h
  rw [Vector.Emplace]
  by_cases h1 : v.size = v.Capacity
  · rw [if_pos h1]
    show v.size + 1 ≤ _
    simp only [Vector.Capacity, RawMemory.Capacity, setRange_length,
      List.length_set, List.length_replicate]
    split <;> omega
  · have hne : v.size ≠ v.data.buffer.length := h1
    rw [if_neg h1]
    by_cases h2 : ind = v.size
    · rw [if_pos h2]
      show v.size + 1 ≤ _
      simp only [Vector.Capacity, RawMemory.Capacity, List.length_set]
      omega
    · rw [if_neg h2]
      show v.size + 1 ≤ _
      simp only [Vector.Capacity, RawMemory.Capacity, setRange_length,
        List.length_set]
      omega

set_option maxHeartbeats 1600000 in
theorem Vector.emplace_elems (v : Vector T) (ind : Nat) (x : T) (hwf : v.wfSize)
    (hind : ind ≤ v.size) :
    (v.Emplace ind x).elems = v.elems.take ind ++ some x :: v.elems.drop ind := by
  have hsz : v.size ≤ v.data.buffer.length := hwf
  rw [Vector.Emplace]
  by_cases h1 : v.size = v.Capacity
  · -- growth path: size_ == Capacity()
    have hlen : v.size = v.data.buffer.length := h1
    rw [if_pos h1]
    apply List.ext_getElem?
    intro i
    simp only [Vector.elems, setRange_getElem?, List.getElem?_take,
      List.getElem?_drop, List.getElem?_append, List.getElem?_set,
      List.getElem?_replicate, List.getElem?_cons, setRange_length,
      List.length_set, List.length_replicate, List.length_take,
      List.length_drop]
    split_ifs <;> first
    | rfl
    | omega
    | (congr 1; omega)
    | (rw [List.getElem?_eq_none (l := v.data.buffer) (by omega)])
  · have hlt : v.size < v.data.buffer.length := by
      have : v.size ≠ v.data.buffer.length := h1
      omega
    rw [if_neg h1]
    by_cases h2 : ind = v.size
    · -- append into the free tail: pos == end()
      subst h2
      rw [if_pos rfl]
      apply List.ext_getElem?
      intro i
      simp only [Vector.elems, List.getElem?_take, List.getElem?_drop,
        List.getElem?_append, List.getElem?_set, List.getElem?_cons,
        List.length_take]
      split_ifs <;> first
      | rfl
      | omega
      | (congr 1; omega)
      | (rw [List.getElem?_eq_none (l := v.data.buffer) (by omega)])
    · -- insert in the middle without growth
      have hindlt : ind < v.size := by omega
      rw [if_neg h2]
      apply List.ext_getElem?
      intro i
      simp only [Vector.elems, setRange_getElem?, List.getElem?_take,
        List.getElem?_drop, List.getElem?_append, List.getElem?_set,
        List.getElem?_cons, List.getD_eq_getElem?_getD, setRange_length,
        List.length_set, List.length_take, List.length_drop]
      have hlast := List.getElem?_eq_getElem (l := v.data.buffer)
        (n := v.size - 1) (by omega)
      split_ifs <;> first
      | rfl
      | omega
      | (congr 1; omega)
      | (rw [List.getElem?_eq_none (l := v.data.buffer) (by omega)])
      | (rw [hlast, Option.getD_some, ← hlast]; congr 1; omega)

theorem Vector.erase_size (v : Vector T) (ind : Nat) :
    (v.Erase ind).size = v.size - 1 := rfl

/-- Whether copying the content of a slot succeeds under the element-copy
oracle `ok` (copying an uninitialized slot never happens in a run that
respects the invariant; it is harmless in the model). -/
def passOk (ok : T → Bool) : Option T → Bool
  | some a => ok a
  | Option.none => true

/-- `std::uninitialized_copy_n` with failure: copies the slot contents front
to back and stops with an exception at the first element whose copy
constructor fails; elements copied before the failure are destroyed again by
the algorithm, so no state escapes a failed run. -/
def copyValsE (ok : T → Bool) : List (Option T) → Except Unit (List (Option T))
  | [] => Except.ok []
  | a :: rest =>
    if passOk ok a then
      match copyValsE ok rest with
      | Except.ok l => Except.ok (a :: l)
      | Except.error e => Except.error e
    else Except.error ()

theorem copyValsE_ok (ok : T → Bool) : ∀ (l : List (Option T)),
    (∀ a ∈ l, passOk ok a = true) → copyValsE ok l = Except.ok l := by
  intro l
  induction l with
  | nil => intro h; rfl
  | cons a rest ih =>
    intro h
    have ha : passOk ok a = true := h a (List.mem_cons_self a rest)
    have hrest := ih (fun b hb => h b (List.mem_cons_of_mem a hb))
    simp only [copyValsE]
    rw [if_pos ha, hrest]

theorem copyValsE_error (ok : T → Bool) : ∀ (l : List (Option T)),
    (∃ a ∈ l, passOk ok a = false) → copyValsE ok l = Except.error () := by
  intro l
  induction l with
  | nil => rintro ⟨a, ha, _⟩; cases ha
  | cons a rest ih =>
    rintro ⟨b, hb, hbf⟩
    simp only [copyValsE]
    by_cases ha : passOk ok a = true
    · rw [if_pos ha]
      have hex : ∃ c ∈ rest, passOk ok c = false := by
        rcases List.mem_cons.mp hb with h | h
        · subst h; rw [ha] at hbf; cases hbf
        · exact ⟨b, h, hbf⟩
      rw [ih hex]
    · rw [if_neg ha]

/-- Copy constructor `Vector(const Vector&)` with both failure sources of
the source code: `RawMemory(other.size_)` fails when the allocator cannot
satisfy a non-zero request (`allocOk = false`), and
`std::uninitialized_copy_n` fails when some element copy fails.  On success
the new object has capacity and size `other.size_` with the elements copied
into the front of the fresh block. -/
def Vector.copyConstructE (allocOk : Bool) (ok : T → Bool) (other : Vector T) :
    Except Unit (Vector T) :=
  if other.size ≠ 0 ∧ allocOk = false then Except.error ()
  else
    match copyValsE ok other.elems with
    | Except.error e => Except.error e
    | Except.ok l =>
        Except.ok ⟨⟨setRange (List.replicate other.size Option.none) 0 l⟩, other.size⟩

/-- The `rhs.size_ > data_.Capacity()` branch of `Vector::operator=(const
Vector&)` (lines 151-153): `Vector rhs_copy(rhs); Swap(rhs_copy);`.  The
first statement reads only `rhs` and writes only the temporary, so when it
throws, the exception propagates with `*this` and `rhs` exactly as they
were; when it succeeds, `Swap` moves the copy into `*this` and the
temporary, now holding the old state of `*this`, is destroyed at the end of
the block.  Returns (whether an exception escaped, `*this` afterwards,
`rhs` afterwards). -/
def Vector.copyAssignGrowE (allocOk : Bool) (ok : T → Bool) (dest rhs : Vector T) :
    Bool × Vector T × Vector T :=
  match Vector.copyConstructE allocOk ok rhs with
  | Except.error _ => (true, dest, rhs)
  | Except.ok temp => (false, temp, rhs)

theorem Vector.erase_elems (v : Vector T) (ind : Nat) (hwf : v.wfSize)
    (hind : ind < v.size) :
    (v.Erase ind).elems = v.elems.take ind ++ v.elems.drop (ind + 1) := by
  have hsz : v.size ≤ v.data.buffer.length := hwf
  rw [Vector.Erase]
  apply List.ext_getElem?
  intro i
  simp only [Vector.elems, destroyN, setRange_getElem?, List.getElem?_take,
    List.getElem?_drop, List.getElem?_append, List.getElem?_replicate,
    setRange_length, List.length_replicate, List.length_take,
    List.length_drop]
  split_ifs <;> first
  | rfl
  | omega
  | (congr 1; omega)

/-- C1: the claim says `Resize(n)` with `n > s` keeps the first `s` elements
in place and default-constructs the trailing `n - s` ones, and that resizing
up and back down restores the original contents.  The code instead passes
`begin()` (not `begin() + size_`) to
`std::uninitialized_value_construct_n`, so on `[1,2,3].Resize(5)` the two
new default values land in slots 0 and 1, overwriting the live `1` and `2`,
while slots 3 and 4 stay uninitialized; resizing back down to 3 then yields
`[0,0,3]`, not `[1,2,3]`. -/
theorem resize_constructs_at_front :
    ((⟨⟨[some 1, some 2, some 3]⟩, 3⟩ : Vector Nat).Resize 5).Size = 5 ∧
    ((⟨⟨[some 1, some 2, some 3]⟩, 3⟩ : Vector Nat).Resize 5).elems =
      [some 0, some 0, some 3, Option.none, Option.none] ∧
    ¬ ((⟨⟨[some 1, some 2, some 3]⟩, 3⟩ : Vector Nat).Resize 5).elems =
      [some 1, some 2, some 3, some 0, some 0] ∧
    (((⟨⟨[some 1, some 2, some 3]⟩, 3⟩ : Vector Nat).Resize 5).Resize 3).elems =
      [some 0, some 0, some 3] := by decide

/-- C2: the claim says every operation that releases or replaces a storage
block — explicitly including move assignment into a non-empty destination —
first destroys the `size` live elements of the abandoned block and leaks
nothing.  The bodies of `Vector::operator=(Vector&&)` and
`RawMemory::operator=(RawMemory&&)` contain no `destroy_n` and no
`Deallocate` call, so moving onto a destination that holds one live element
in a one-slot block performs zero destructor calls and zero deallocations:
the old block and its live element are abandoned unreleased. -/
theorem move_assign_destroys_nothing :
    (⟨⟨[some 7]⟩, 1⟩ : Vector Nat).Size = 1 ∧
    (⟨⟨[some 7]⟩, 1⟩ : Vector Nat).Capacity = 1 ∧
    (Vector.moveAssign false (⟨⟨[some 7]⟩, 1⟩ : Vector Nat)
      ⟨⟨[some 5]⟩, 1⟩).2.destroyed = 0 ∧
    (Vector.moveAssign false (⟨⟨[some 7]⟩, 1⟩ : Vector Nat)
      ⟨⟨[some 5]⟩, 1⟩).2.released = 0 := ⟨rfl, rfl, rfl, rfl⟩

/-- C3: `PushBack` increments `Size()` by one and stores the pushed value in
the last slot; when `size == capacity` the new capacity is
`max 1 (2 * size)`; capacity never decreases; and three pushes from empty
give size 3, capacity 4 and elements `[1,2,3]`. -/
theorem pushBack_spec (v : Vector T) (x : T) (hwf : v.wfSize) :
    (v.PushBack x).Size = v.Size + 1 ∧
    (v.PushBack x).slot v.size = some x ∧
    (v.size = v.Capacity → (v.PushBack x).Capacity = max 1 (2 * v.size)) ∧
    v.Capacity ≤ (v.PushBack x).Capacity ∧
    ((((Vector.nil : Vector Nat).PushBack 1).PushBack 2).PushBack 3).Size = 3 ∧
    ((((Vector.nil : Vector Nat).PushBack 1).PushBack 2).PushBack 3).Capacity = 4 ∧
    ((((Vector.nil : Vector Nat).PushBack 1).PushBack 2).PushBack 3).elems =
      [some 1, some 2, some 3] := by
  have hsz : v.size ≤ v.data.buffer.length := hwf
  refine ⟨?_, ?_, ?_, ?_, by decide, by decide, by decide⟩
  · rw [Vector.PushBack]
    by_cases h : v.size = v.Capacity
    · rw [if_pos h]
      rfl
    · rw [if_neg h]
      rfl
  · by_cases h : v.size = v.Capacity
    · have hlen : v.size = v.data.buffer.length := h
      rw [Vector.PushBack, if_pos h]
      simp only [Vector.slot, List.getD_eq_getElem?_getD, setRange_getElem?,
        List.getElem?_set, List.getElem?_replicate, setRange_length,
        List.length_set, List.length_replicate, List.length_take]
      split_ifs <;> first | rfl | omega
    · have hlt : v.size < v.data.buffer.length := by
        have : v.size ≠ v.data.buffer.length := h
        omega
      rw [Vector.PushBack, if_neg h]
      simp only [Vector.slot, List.getD_eq_getElem?_getD, List.getElem?_set]
      simp [hlt]
  · intro h
    rw [Vector.PushBack, if_pos h]
    show (setRange _ _ _).length = _
    simp only [setRange_length, List.length_set, List.length_replicate]
    split <;> omega
  · by_cases h : v.size = v.Capacity
    · have hlen : v.size = v.data.buffer.length := h
      rw [Vector.PushBack, if_pos h]
      show v.Capacity ≤ (setRange _ _ _).length
      simp only [Vector.Capacity, RawMemory.Capacity, setRange_length,
        List.length_set, List.length_replicate]
      split <;> omega
    · rw [Vector.PushBack, if_neg h]
      show v.Capacity ≤ (List.set _ _ _).length
      simp only [Vector.Capacity, RawMemory.Capacity, List.length_set]
      omega

theorem pushBack_spec_witness :
    (⟨⟨[some 9, Option.none]⟩, 1⟩ : Vector Nat).wfSize ∧
    ((⟨⟨[some 9, Option.none]⟩, 1⟩ : Vector Nat).PushBack 4).Size = 2 :=
  ⟨by decide, (pushBack_spec (⟨⟨[some 9, Option.none]⟩, 1⟩ : Vector Nat) 4
    (by decide)).1⟩

/-- C4: in the `rhs.size > capacity` branch of copy assignment, the copy of
`rhs` is built completely in a temporary before `*this` is touched, so
`rhs` is unchanged in every outcome, a failure (of the allocation or of any
element copy — the iff characterises exactly when one occurs) propagates
with the destination exactly as it was, and success installs a full copy of
`rhs`. -/
theorem copy_assign_grow_strong (allocOk : Bool) (ok : T → Bool)
    (dest rhs : Vector T) (hr : rhs.wfSize) (hgt : dest.Capacity < rhs.size) :
    (Vector.copyAssignGrowE allocOk ok dest rhs).2.2 = rhs ∧
    ((Vector.copyAssignGrowE allocOk ok dest rhs).1 = true →
      (Vector.copyAssignGrowE allocOk ok dest rhs).2.1 = dest) ∧
    ((Vector.copyAssignGrowE allocOk ok dest rhs).1 = false →
      (Vector.copyAssignGrowE allocOk ok dest rhs).2.1.Size = rhs.Size ∧
      (Vector.copyAssignGrowE allocOk ok dest rhs).2.1.Capacity = rhs.size ∧
      (Vector.copyAssignGrowE allocOk ok dest rhs).2.1.elems = rhs.elems) ∧
    ((Vector.copyAssignGrowE allocOk ok dest rhs).1 = true ↔
      ((allocOk = false ∧ rhs.size ≠ 0) ∨
        ∃ a ∈ rhs.elems, passOk ok a = false)) := by
  by_cases halloc : rhs.size ≠ 0 ∧ allocOk = false
  · have hcc : Vector.copyConstructE allocOk ok rhs = Except.error () := by
      rw [Vector.copyConstructE, if_pos halloc]
    have hge : Vector.copyAssignGrowE allocOk ok dest rhs = (true, dest, rhs) := by
      rw [Vector.copyAssignGrowE, hcc]
    rw [hge]
    refine ⟨rfl, fun _ => rfl, fun h => Bool.noConfusion h, ?_⟩
    constructor
    · intro _
      exact Or.inl ⟨halloc.2, halloc.1⟩
    · intro _
      rfl
  · by_cases hall : ∀ a ∈ rhs.elems, passOk ok a = true
    · have hcv := copyValsE_ok ok rhs.elems hall
      have hcc : Vector.copyConstructE allocOk ok rhs = Except.ok
          ⟨⟨setRange (List.replicate rhs.size Option.none) 0 rhs.elems⟩,
            rhs.size⟩ := by
        rw [Vector.copyConstructE, if_neg halloc, hcv]
      have hge : Vector.copyAssignGrowE allocOk ok dest rhs = (false,
          ⟨⟨setRange (List.replicate rhs.size Option.none) 0 rhs.elems⟩,
            rhs.size⟩, rhs) := by
        rw [Vector.copyAssignGrowE, hcc]
      have hlen : rhs.elems.length = rhs.size := rhs.elems_length hr
      rw [hge]
      refine ⟨rfl, fun h => Bool.noConfusion h, fun _ => ⟨rfl, ?_, ?_⟩, ?_⟩
      · show (setRange _ _ _).length = rhs.size
        simp only [setRange_length, List.length_replicate]
      · show (setRange _ _ _).take rhs.size = rhs.elems
        rw [setRange_eq _ _ _ (by simp [hlen])]
        simp only [List.take_zero, List.nil_append, Nat.zero_add, hlen,
          List.drop_replicate, Nat.sub_self, List.replicate_zero,
          List.append_nil]
        rw [← hlen, List.take_length]
      · constructor
        · intro h
          cases h
        · rintro (⟨h1, h2⟩ | ⟨a, ha, haf⟩)
          · exact absurd ⟨h2, h1⟩ halloc
          · rw [hall a ha] at haf
            cases haf
    · have hex : ∃ a ∈ rhs.elems, passOk ok a = false := by
        push_neg at hall
        simpa using hall
      have hcv := copyValsE_error ok rhs.elems hex
      have hcc : Vector.copyConstructE allocOk ok rhs = Except.error () := by
        rw [Vector.copyConstructE, if_neg halloc, hcv]
      have hge : Vector.copyAssignGrowE allocOk ok dest rhs = (true, dest, rhs) := by
        rw [Vector.copyAssignGrowE, hcc]
      rw [hge]
      refine ⟨rfl, fun _ => rfl, fun h => Bool.noConfusion h, ?_⟩
      constructor
      · intro _
        exact Or.inr hex
      · intro _
        rfl

theorem copy_assign_grow_strong_witness :
    (⟨⟨[some 3]⟩, 1⟩ : Vector Nat).wfSize ∧
    (⟨⟨[]⟩, 0⟩ : Vector Nat).Capacity < 1 ∧
    (Vector.copyAssignGrowE true (fun _ => true) (⟨⟨[]⟩, 0⟩ : Vector Nat)
      ⟨⟨[some 3]⟩, 1⟩).2.2 = ⟨⟨[some 3]⟩, 1⟩ :=
  ⟨by decide, by decide, (copy_assign_grow_strong true (fun _ => true)
    (⟨⟨[]⟩, 0⟩ : Vector Nat) ⟨⟨[some 3]⟩, 1⟩ (by decide) (by decide)).1⟩

/-- C5: copy assignment from a source that fits in the destination's
capacity reallocates nothing: the capacity is exactly preserved, the size
becomes `rhs.Size()`, the live elements equal `rhs`'s elementwise, and any
surplus destination slots beyond the new size are left destroyed. -/
theorem copy_assign_in_place (dest rhs : Vector T) (hd : dest.wfSize)
    (hr : rhs.wfSize) (hle : rhs.size ≤ dest.Capacity) :
    (Vector.copyAssign false dest rhs).Capacity = dest.Capacity ∧
    (Vector.copyAssign false dest rhs).Size = rhs.Size ∧
    (Vector.copyAssign false dest rhs).elems = rhs.elems ∧
    ∀ i, rhs.size ≤ i → i < dest.size →
      (Vector.copyAssign false dest rhs).slot i = Option.none := by
  have hdl : dest.size ≤ dest.data.buffer.length := hd
  have hrl : rhs.size ≤ rhs.data.buffer.length := hr
  have hcap : rhs.size ≤ dest.data.buffer.length := hle
  rw [Vector.copyAssign, if_neg (by simp), if_neg (by omega)]
  by_cases hlt : rhs.size < dest.size
  · rw [if_pos hlt]
    refine ⟨?_, rfl, ?_, ?_⟩
    · simp only [Vector.Capacity, RawMemory.Capacity, destroyN, setRange_length]
    · apply List.ext_getElem?
      intro i
      simp only [Vector.elems, destroyN, setRange_getElem?, List.getElem?_take,
        List.getElem?_replicate, setRange_length, List.length_replicate,
        List.length_take]
      split_ifs <;> first | rfl | omega | (congr 1; omega)
    · intro i h1 h2
      simp only [Vector.slot, List.getD_eq_getElem?_getD, destroyN,
        setRange_getElem?, List.getElem?_replicate, setRange_length,
        List.length_replicate, List.length_take]
      split_ifs <;> first | rfl | omega
  · rw [if_neg hlt]
    refine ⟨?_, rfl, ?_, ?_⟩
    · simp only [Vector.Capacity, RawMemory.Capacity, setRange_length]
    · apply List.ext_getElem?
      intro i
      simp only [Vector.elems, setRange_getElem?, List.getElem?_take,
        List.getElem?_drop, setRange_length, List.length_take, List.length_drop]
      split_ifs <;> first | rfl | omega | (congr 1; omega)
    · intro i h1 h2
      omega

theorem copy_assign_in_place_witness :
    (⟨⟨[some 1, some 2, some 3]⟩, 3⟩ : Vector Nat).wfSize ∧
    (⟨⟨[some 7]⟩, 1⟩ : Vector Nat).wfSize ∧
    (1 : Nat) ≤ (⟨⟨[some 1, some 2, some 3]⟩, 3⟩ : Vector Nat).Capacity ∧
    (Vector.copyAssign false (⟨⟨[some 1, some 2, some 3]⟩, 3⟩ : Vector Nat)
      ⟨⟨[some 7]⟩, 1⟩).Capacity = 3 :=
  ⟨by decide, by decide, by decide,
    (copy_assign_in_place (⟨⟨[some 1, some 2, some 3]⟩, 3⟩ : Vector Nat)
      ⟨⟨[some 7]⟩, 1⟩ (by decide) (by decide) (by decide)).1⟩

/-- C6: move construction and move assignment transfer the whole state to
the destination; the moved-from source ends with `Size() == 0`, the null
buffer, and remains usable — a subsequent `PushBack` succeeds and stores
its value. -/
theorem move_transfer (v d : Vector T) (x y : T) :
    (Vector.moveConstruct v).1 = v ∧
    (Vector.moveConstruct v).2.Size = 0 ∧
    ((Vector.moveConstruct v).2.PushBack x).Size = 1 ∧
    ((Vector.moveConstruct v).2.PushBack x).slot 0 = some x ∧
    (Vector.moveAssign false d v).1.1 = v ∧
    (Vector.moveAssign false d v).1.2.Size = 0 ∧
    ((Vector.moveAssign false d v).1.2.PushBack y).Size = 1 ∧
    ((Vector.moveAssign false d v).1.2.PushBack y).slot 0 = some y :=
  ⟨rfl, rfl, rfl, rfl, rfl, rfl, rfl, rfl⟩

/-- C7: inserting a value at any index `k ≤ Size()` and then erasing at the
same index restores the original element sequence and the original size. -/
theorem insert_erase_roundtrip (v : Vector T) (k : Nat) (x : T)
    (hwf : v.wfSize) (hk : k ≤ v.size) :
    ((v.Emplace k x).Erase k).elems = v.elems ∧
    ((v.Emplace k x).Erase k).Size = v.Size := by
  have hwf1 := v.emplace_wfSize k x hwf
  have hsz1 := v.emplace_size k x
  have hlen := v.elems_length hwf
  have he := v.emplace_elems k x hwf hk
  have h2 := (v.Emplace k x).erase_elems k hwf1 (by omega)
  constructor
  · rw [h2, he]
    have hl : (v.elems.take k).length = k := by
      rw [List.length_take]
      omega
    have htake : (v.elems.take k ++ some x :: v.elems.drop k).take k =
        v.elems.take k := by
      rw [List.take_append_of_le_length (by omega), List.take_take]
      congr 1
      omega
    have hdrop : (v.elems.take k ++ some x :: v.elems.drop k).drop (k + 1) =
        v.elems.drop k := by
      rw [show k + 1 = (v.elems.take k).length + 1 from by omega,
        List.drop_append, List.drop_one]
      rfl
    rw [htake, hdrop, List.take_append_drop]
  · show (v.Emplace k x).size - 1 = v.size
    omega

theorem insert_erase_roundtrip_witness :
    (⟨⟨[some 1, some 2, some 3]⟩, 3⟩ : Vector Nat).wfSize ∧
    (1 : Nat) ≤ 3 ∧
    (((⟨⟨[some 1, some 2, some 3]⟩, 3⟩ : Vector Nat).Emplace 1 9).Erase 1).elems =
      (⟨⟨[some 1, some 2, some 3]⟩, 3⟩ : Vector Nat).elems :=
  ⟨by decide, by decide,
    (insert_erase_roundtrip (⟨⟨[some 1, some 2, some 3]⟩, 3⟩ : Vector Nat) 1 9
      (by decide) (by decide)).1⟩

/-- C8: the claim says `0 ≤ Size() ≤ Capacity()` with slots `[0, Size())`
live and `[Size(), Capacity())` uninitialized holds for every vector
reachable by public operations.  Because `Resize` constructs the new
elements at the front instead of the tail, the reachable state
`Resize(PushBack 1; PushBack 2; PushBack 3, 5)` has `Size() = 5` while slot
3 (inside `[0, Size())`) is uninitialized, violating the invariant. -/
theorem reachable_state_violates_invariant :
    (((((Vector.nil : Vector Nat).PushBack 1).PushBack 2).PushBack 3).Resize 5).Size = 5 ∧
    (((((Vector.nil : Vector Nat).PushBack 1).PushBack 2).PushBack 3).Resize 5).slot 3 =
      Option.none ∧
    ¬ (((((Vector.nil : Vector Nat).PushBack 1).PushBack 2).PushBack 3).Resize 5).Inv := by
  decide

/-- C9: self-assignment through either assignment operator hits the
`this != &rhs` guard and leaves the vector completely unchanged. -/
theorem self_assignment_identity (v : Vector T) :
    Vector.copyAssign true v v = v ∧
    (Vector.moveAssign true v v).1.1 = v ∧
    (Vector.moveAssign true v v).1.2 = v :=
  ⟨rfl, rfl, rfl⟩

/-- C10: `Swap` exchanges the complete state of the two vectors — each ends
with the other's former buffer, capacity and size — and performs no element
construction, copy, destruction or deallocation; as a pure field exchange it
cannot fail. -/
theorem swap_exchanges_state (a b : Vector T) :
    (Vector.SwapOp a b).1.1 = b ∧
    (Vector.SwapOp a b).1.2 = a ∧
    (Vector.SwapOp a b).2 = Effects.none :=
  ⟨rfl, rfl, rfl⟩

end VectorH
